import Mathlib

/-!
Shallow embedding of the `sales_analyzer` Python module (file
`salesanalyzer.py`) and proofs about its analysis operations.

Modelling conventions, used consistently below:

* A pandas timestamp is modelled as a day number (`ℤ`, days since
  1970-01-01); `pd.Period('M')` of a timestamp is the calendar month
  index `year * 12 + (month - 1)` computed by `civilYM` with the
  standard civil-calendar algorithm.
* Monetary values (`amount`) are exact rationals `ℚ`; `DataFrame.round(2)`
  is `round2`, rounding half to even at two decimals exactly as
  `numpy.round` does.
* A float `NaN` (mean of an empty series, `0.0 / 0`, `pct_change` of the
  first row) and the non-finite results of a division by zero are
  modelled as `none : Option ℚ`; a raised exception is modelled in the
  return type (`Except` for the constructor, `Option` where a method can
  raise `IndexError`).
* `groupby(col)` produces its groups keyed by the distinct key values in
  ascending order (pandas sorts group keys); a group is the sublist of
  rows with that key, in row order.
* The dataframe held by the analyzer is the list of rows plus the
  `year_month` column that `get_monthly_trends` writes back into it;
  methods are state-passing functions on this structure so that the
  write-back is explicit.
-/

/-- Rounding half to even of a rational to an integer, the rounding mode of
`numpy.round`. -/
def roundHalfEven (q : ℚ) : ℤ :=
  let f : ℤ := ⌊q⌋
  let r : ℚ := q - f
  if r < 1/2 then f
  else if 1/2 < r then f + 1
  else if f % 2 = 0 then f else f + 1

/-- Model of `Series.round(2)` / `DataFrame.round(2)` on a numeric value. -/
def round2 (q : ℚ) : ℚ := (roundHalfEven (q * 100) : ℚ) / 100

/-- Distinct elements of a list (order irrelevant here: the result is always
sorted afterwards); used to model `nunique` and the distinct group keys. -/
def dedupKeep {α : Type} [DecidableEq α] : List α → List α
  | [] => []
  | a :: l => if a ∈ dedupKeep l then dedupKeep l else a :: dedupKeep l

/-- Model of `Series.nunique()`. -/
def nuniq {α : Type} [DecidableEq α] (l : List α) : ℕ := (dedupKeep l).length

/-- The distinct keys of a `groupby`, in ascending order (pandas sorts the
group keys). -/
def sortedKeys {α : Type} [DecidableEq α] [LinearOrder α] (l : List α) : List α :=
  List.insertionSort (· ≤ ·) (dedupKeep l)

/-- Model of `Series.mean()`: `NaN` (= `none`) on an empty series. -/
def meanQ (l : List ℚ) : Option ℚ :=
  if l = [] then none else some (l.sum / (l.length : ℚ))

/-- Model of `Series.median()`: sort, take the middle element, or the average
of the two middle elements; `NaN` on an empty series. -/
def medianQ (l : List ℚ) : Option ℚ :=
  let s := List.insertionSort (· ≤ ·) l
  if s.length = 0 then none
  else if s.length % 2 = 1 then some (s.getD (s.length / 2) 0)
  else some ((s.getD (s.length / 2 - 1) 0 + s.getD (s.length / 2) 0) / 2)

/-- Model of `Series.min()`: `NaN` on an empty series. -/
def minQ : List ℚ → Option ℚ
  | [] => none
  | a :: l => some (l.foldl min a)

/-- Model of `Series.max()`: `NaN` on an empty series. -/
def maxQ : List ℚ → Option ℚ
  | [] => none
  | a :: l => some (l.foldl max a)

/-- Minimum of a list of integers with a default for the empty list (the
empty case is never reached where this is used). -/
def intMinD (d : ℤ) : List ℤ → ℤ
  | [] => d
  | a :: l => l.foldl min a

/-- Maximum of a list of integers with a default for the empty list. -/
def intMaxD (d : ℤ) : List ℤ → ℤ
  | [] => d
  | a :: l => l.foldl max a

/-- Calendar month index (`year * 12 + month - 1`) of a day number counted
from 1970-01-01; the standard civil-from-days algorithm. Models
`Series.dt.to_period('M')` on one timestamp. -/
def civilYM (z : ℤ) : ℤ :=
  let d := z + 719468
  let era := d / 146097
  let doe := d % 146097
  let yoe := (doe - doe / 1460 + doe / 36524 - doe / 146096) / 365
  let y := yoe + era * 400
  let doy := doe - (365 * yoe + yoe / 4 - yoe / 100)
  let mp := (5 * doy + 2) / 153
  let m := mp + (if mp < 10 then 3 else -9)
  let y2 := y + (if m ≤ 2 then 1 else 0)
  y2 * 12 + (m - 1)

/-- One row of the sales dataset, with the seven required columns of
`SalesAnalyzer.__init__`. `order_date` is the (already normalized) day
number of the timestamp. -/
structure Row where
  order_id : String
  customer_id : String
  order_date : ℤ
  amount : ℚ
  region : String
  product_category : String
  quantity : ℕ
deriving DecidableEq

/-- The validated dataframe held by a `SalesAnalyzer`: the rows plus the
`year_month` column that `get_monthly_trends` writes back into `self.df`
(absent until the first call). -/
structure SalesAnalyzer where
  rows : List Row
  year_month : Option (List ℤ)
deriving DecidableEq

/-- The raw tabular input of the constructor: the set of column names the
table carries, and the row data (meaningful once all seven required
columns are present). -/
structure RawTable where
  cols : List String
  rows : List Row

/-- An exception raised during construction: `keyError c` models the
`KeyError` raised by the column access `self.df['order_date']` when that
column is absent, `missingColumns l` models the `ValueError` raised by
`_validate_data` with the list of missing column names. -/
inductive InitError where
  | keyError : String → InitError
  | missingColumns : List String → InitError
deriving DecidableEq

/-- The `required_cols` list of `SalesAnalyzer._validate_data`. -/
def required_cols : List String :=
  ["order_id", "customer_id", "order_date", "amount",
   "region", "product_category", "quantity"]

/-- Model of `SalesAnalyzer._validate_data`: the missing required columns,
in `required_cols` order, as in the Python list comprehension. -/
def validate_data (cols : List String) : Option InitError :=
  let missing := required_cols.filter (fun c => ¬ c ∈ cols)
  if missing = [] then none else some (.missingColumns missing)

/-- Model of `SalesAnalyzer.__init__`: copies the data, then evaluates
`pd.to_datetime(self.df['order_date'])` — whose column access raises
`KeyError` when `order_date` is absent, before validation runs — and only
then calls `_validate_data`. Normalization of an already-normalized day
number is the identity. -/
def mkSalesAnalyzer (t : RawTable) : Except InitError SalesAnalyzer :=
  if "order_date" ∈ t.cols then
    match validate_data t.cols with
    | some e => .error e
    | none => .ok ⟨t.rows, none⟩
  else .error (.keyError "order_date")

/-- Result of `get_revenue_summary`. The four order-value statistics are
`NaN` (= `none`) on an empty dataset. -/
structure RevenueSummary where
  total_revenue : ℚ
  avg_order_value : Option ℚ
  median_order_value : Option ℚ
  min_order_value : Option ℚ
  max_order_value : Option ℚ
  total_transactions : ℕ
  total_units_sold : ℕ
deriving DecidableEq

/-- Model of `SalesAnalyzer.get_revenue_summary`. -/
def get_revenue_summary (a : SalesAnalyzer) : RevenueSummary :=
  { total_revenue := (a.rows.map Row.amount).sum
    avg_order_value := meanQ (a.rows.map Row.amount)
    median_order_value := medianQ (a.rows.map Row.amount)
    min_order_value := minQ (a.rows.map Row.amount)
    max_order_value := maxQ (a.rows.map Row.amount)
    total_transactions := a.rows.length
    total_units_sold := (a.rows.map Row.quantity).sum }

/-- Sort a list in descending order of a rational-valued key, the model of
`sort_values(key, ascending=False)` (tie order is unspecified in the
source, which uses an unstable quicksort; any deterministic order refines
it). -/
def sortByDesc {α : Type} (f : α → ℚ) (l : List α) : List α :=
  List.insertionSort (fun a b => f b ≤ f a) l

/-- One row of the `get_regional_analysis` result (for
`get_product_performance` the source names the same five aggregates
`Revenue`, `Avg_Price`, `Transactions`, `Quantity_Sold`,
`Unique_Customers`). -/
structure GroupStats where
  key : String
  Revenue : ℚ
  Avg_Order_Value : ℚ
  Transactions : ℕ
  Units_Sold : ℕ
  Unique_Customers : ℕ
deriving DecidableEq

/-- The group of rows with the given key value, in row order. -/
def groupRows (key : Row → String) (rows : List Row) (k : String) : List Row :=
  rows.filter (fun r => key r = k)

/-- The aggregates of one `groupby(...).agg({'amount': ['sum', 'mean',
'count'], 'quantity': 'sum', 'customer_id': 'nunique'}).round(2)` group. A
group is never empty (its key comes from one of its rows), so the `mean`
division is never by zero. -/
def groupAgg (key : Row → String) (rows : List Row) (k : String) : GroupStats :=
  let g := groupRows key rows k
  { key := k
    Revenue := round2 ((g.map Row.amount).sum)
    Avg_Order_Value := round2 ((g.map Row.amount).sum / (g.length : ℚ))
    Transactions := g.length
    Units_Sold := (g.map Row.quantity).sum
    Unique_Customers := nuniq (g.map Row.customer_id) }

/-- The grouped, aggregated and revenue-sorted table shared by
`get_regional_analysis` and `get_product_performance`. -/
def groupedTable (key : Row → String) (rows : List Row) : List GroupStats :=
  sortByDesc GroupStats.Revenue
    ((sortedKeys (rows.map key)).map (groupAgg key rows))

/-- Model of `SalesAnalyzer.get_regional_analysis`. -/
def get_regional_analysis (a : SalesAnalyzer) : List GroupStats :=
  groupedTable Row.region a.rows

/-- Model of `SalesAnalyzer.get_product_performance`. -/
def get_product_performance (a : SalesAnalyzer) : List GroupStats :=
  groupedTable Row.product_category a.rows

/-- One row of the `get_monthly_trends` result. `MoM_Growth` models the
`MoM_Growth_%` column; `none` is the `NaN` of the first row (and the
non-finite result of `pct_change` over a zero previous revenue). -/
structure MonthRow where
  year_month : ℤ
  Revenue : ℚ
  Avg_Order_Value : ℚ
  Transactions : ℕ
  Units : ℕ
  MoM_Growth : Option ℚ
deriving DecidableEq

/-- A placeholder `MonthRow`, used only as the default of out-of-range
`List.getD` lookups in statements. -/
def mrow0 : MonthRow := ⟨0, 0, 0, 0, 0, none⟩

/-- The rows of one calendar month. -/
def month_group (rows : List Row) (ym : ℤ) : List Row :=
  rows.filter (fun r => civilYM r.order_date = ym)

/-- The per-month aggregates of `get_monthly_trends` before the growth
column is added (`groupby('year_month').agg({'amount': ['sum', 'mean',
'count'], 'quantity': 'sum'}).round(2)`). -/
def month_agg (rows : List Row) (ym : ℤ) : MonthRow :=
  let g := month_group rows ym
  { year_month := ym
    Revenue := round2 ((g.map Row.amount).sum)
    Avg_Order_Value := round2 ((g.map Row.amount).sum / (g.length : ℚ))
    Transactions := g.length
    Units := (g.map Row.quantity).sum
    MoM_Growth := none }

/-- One step of `Revenue.pct_change() * 100` followed by the final
`round(2)`: the growth of a row against the previous revenue `p`. A zero
previous revenue makes `pct_change` non-finite (`inf` or `NaN`), modelled
as `none`. -/
def set_growth (p : ℚ) (m : MonthRow) : MonthRow :=
  { m with MoM_Growth :=
      if p = 0 then none else some (round2 ((m.Revenue - p) / p * 100)) }

/-- The `MoM_Growth_%` column: `pct_change` threaded down the month rows,
`none` (no previous row) for the first. -/
def add_growth : Option ℚ → List MonthRow → List MonthRow
  | _, [] => []
  | none, m :: l => m :: add_growth (some m.Revenue) l
  | some p, m :: l => set_growth p m :: add_growth (some m.Revenue) l

/-- The `get_monthly_trends` result table computed from the rows. -/
def monthly_trends (rows : List Row) : List MonthRow :=
  add_growth none
    ((sortedKeys (rows.map (fun r => civilYM r.order_date))).map (month_agg rows))

/-- Model of `SalesAnalyzer.get_monthly_trends`: writes the derived
`year_month` column back into `self.df` (the one mutation of the held
dataframe), then groups by it and aggregates. -/
def get_monthly_trends (a : SalesAnalyzer) : SalesAnalyzer × List MonthRow :=
  (⟨a.rows, some (a.rows.map (fun r => civilYM r.order_date))⟩,
   monthly_trends a.rows)

/-- One row of the `get_customer_segmentation` result. -/
structure CustomerRow where
  customer_id : String
  lifetime_value : ℚ
  purchase_count : ℕ
  avg_purchase : ℚ
  first_purchase : ℤ
  last_purchase : ℤ
  total_units : ℕ
  recency_days : ℤ
  segment : String
deriving DecidableEq

/-- The orders of one customer, in row order. -/
def customer_group (rows : List Row) (c : String) : List Row :=
  rows.filter (fun r => r.customer_id = c)

/-- A customer's lifetime value: the sum of the amounts of their orders. -/
def ltv (rows : List Row) (c : String) : ℚ :=
  ((customer_group rows c).map Row.amount).sum

/-- The lifetime values of the customer population, in the groupby order of
`customer_stats` (ascending customer id). -/
def ltv_population (rows : List Row) : List ℚ :=
  (sortedKeys (rows.map Row.customer_id)).map (ltv rows)

/-- Model of `Series.quantile(p)` with the default linear interpolation, on
a nonempty series. -/
def quantileQ (xs : List ℚ) (p : ℚ) : ℚ :=
  let s := List.insertionSort (· ≤ ·) xs
  let h : ℚ := p * ((s.length : ℚ) - 1)
  let i : ℤ := ⌊h⌋
  let g : ℚ := h - i
  s.getD i.toNat 0 + g * (s.getD (i.toNat + 1) 0 - s.getD i.toNat 0)

/-- The `segment` function of `get_customer_segmentation`: thresholds are
the quartiles of the lifetime values of the full customer population. -/
def segment_of (ltvs : List ℚ) (v : ℚ) : String :=
  if quantileQ ltvs (3/4) < v then "VIP"
  else if quantileQ ltvs (1/2) < v then "Premium"
  else if quantileQ ltvs (1/4) < v then "Standard"
  else "New"

/-- One row of `customer_stats`: the per-customer aggregates, recency
against the dataset's latest date, and the segment label. -/
def customer_agg (rows : List Row) (c : String) : CustomerRow :=
  let g := customer_group rows c
  { customer_id := c
    lifetime_value := ltv rows c
    purchase_count := g.length
    avg_purchase := ((g.map Row.amount).sum) / (g.length : ℚ)
    first_purchase := intMinD 0 (g.map Row.order_date)
    last_purchase := intMaxD 0 (g.map Row.order_date)
    total_units := (g.map Row.quantity).sum
    recency_days := intMaxD 0 (rows.map Row.order_date) -
      intMaxD 0 (g.map Row.order_date)
    segment := segment_of (ltv_population rows) (ltv rows c) }

/-- Model of `SalesAnalyzer.get_customer_segmentation`: per-customer
aggregation, segment labels from the population quartiles, sorted by
descending lifetime value. -/
def get_customer_segmentation (a : SalesAnalyzer) : List CustomerRow :=
  sortByDesc CustomerRow.lifetime_value
    ((sortedKeys (a.rows.map Row.customer_id)).map (customer_agg a.rows))

/-- Result of `get_key_metrics`. `Growth_Rate` models the `Growth_Rate_%`
entry and `Repeat_Customer_Rate` the `Repeat_Customer_Rate_%` entry;
`none` models the `NaN` produced by a mean over an empty (or all-`NaN`)
series and by the `0 / 0` divisions on a dataset with no customers. -/
structure KeyMetrics where
  YTD_Revenue : ℚ
  Avg_Monthly_Revenue : Option ℚ
  Growth_Rate : Option ℚ
  Customer_Count : ℕ
  Revenue_Per_Customer : Option ℚ
  Repeat_Customer_Rate : Option ℚ
deriving DecidableEq

/-- Model of `SalesAnalyzer.get_key_metrics`. Calls `get_monthly_trends`,
so it inherits its `year_month` write-back. `Series.mean()` skips `NaN`
entries, so the growth-rate mean averages the non-`none` growth values and
is itself `NaN` when there are none. -/
def get_key_metrics (a : SalesAnalyzer) : SalesAnalyzer × KeyMetrics :=
  let m := get_monthly_trends a
  let monthly := m.2
  let n := nuniq (a.rows.map Row.customer_id)
  (m.1,
   { YTD_Revenue := (monthly.map MonthRow.Revenue).sum
     Avg_Monthly_Revenue := meanQ (monthly.map MonthRow.Revenue)
     Growth_Rate := meanQ (monthly.filterMap MonthRow.MoM_Growth)
     Customer_Count := n
     Revenue_Per_Customer :=
       if n = 0 then none else some ((a.rows.map Row.amount).sum / (n : ℚ))
     Repeat_Customer_Rate :=
       if n = 0 then none
       else some
         ((((dedupKeep (a.rows.map Row.customer_id)).filter
             (fun c => 1 < (customer_group a.rows c).length)).length : ℚ)
           / (n : ℚ) * 100) })

/-- One row of the `get_top_customers` result. -/
structure TopCustomerRow where
  customer_id : String
  total_spent : ℚ
  purchase_count : ℕ
  avg_purchase : ℚ
  total_units : ℕ
deriving DecidableEq

/-- One row of the `top` aggregation of `get_top_customers`. -/
def top_agg (rows : List Row) (c : String) : TopCustomerRow :=
  let g := customer_group rows c
  { customer_id := c
    total_spent := ((g.map Row.amount).sum)
    purchase_count := g.length
    avg_purchase := ((g.map Row.amount).sum) / (g.length : ℚ)
    total_units := (g.map Row.quantity).sum }

/-- The per-customer table of `get_top_customers`, in groupby order
(ascending customer id). -/
def customer_table (rows : List Row) : List TopCustomerRow :=
  (sortedKeys (rows.map Row.customer_id)).map (top_agg rows)

/-- The order of `DataFrame.nlargest(n, col)` with the default
`keep='first'`: descending by the column, ties broken by earlier position
in the frame. Position indices are attached with `enum`. -/
def nlRel (a b : ℕ × TopCustomerRow) : Prop :=
  b.2.total_spent < a.2.total_spent ∨
    (a.2.total_spent = b.2.total_spent ∧ a.1 ≤ b.1)

instance : DecidableRel nlRel := fun a b => by
  unfold nlRel; infer_instance

/-- Model of `top.nlargest(n, 'total_spent')`: the first `n` rows of the
stable descending order by `total_spent`. -/
def nlargest_by_spent (n : ℕ) (l : List TopCustomerRow) : List TopCustomerRow :=
  ((List.insertionSort nlRel l.enum).take n).map Prod.snd

/-- Model of `SalesAnalyzer.get_top_customers`. -/
def get_top_customers (a : SalesAnalyzer) (n : ℕ) : List TopCustomerRow :=
  nlargest_by_spent n (customer_table a.rows)

/-- One row of the `get_cohort_analysis` result: a cohort month and its
distinct-customer count. -/
structure CohortRow where
  cohort_month : ℤ
  customer_id_nunique : ℕ
deriving DecidableEq

/-- The cohort month of a row: the calendar month of the first-ever order
of the row's customer (`groupby('customer_id')['order_date'].transform('min')`). -/
def cohort_of (rows : List Row) (r : Row) : ℤ :=
  civilYM (intMinD 0 ((customer_group rows r.customer_id).map Row.order_date))

/-- Model of `SalesAnalyzer.get_cohort_analysis`. The method works on a
copy of the dataframe, so it has no write-back; the `order_month` column
the source derives on the copy is never used and is not modelled. -/
def get_cohort_analysis (a : SalesAnalyzer) : List CohortRow :=
  (sortedKeys (a.rows.map (cohort_of a.rows))).map
    (fun cm =>
      ⟨cm, nuniq (((a.rows.filter (fun r => cohort_of a.rows r = cm))).map
        Row.customer_id)⟩)

/-- Result of `get_sales_forecast_indicators`. The dict's `std_dev` and
`volatility` entries are real square roots with no rational value; they
are carried here by the sample variance `var_monthly` (`Series.std()`
squared, `ddof = 1`, `NaN` for fewer than two months): `std_dev` is its
square root and `volatility` that square root over `avg_monthly`. -/
structure ForecastIndicators where
  latest_month_revenue : ℚ
  previous_month_revenue : ℚ
  avg_monthly : ℚ
  var_monthly : Option ℚ
  trend_direction : String
deriving DecidableEq

/-- The indicator dict of `get_sales_forecast_indicators` built from the
monthly `Revenue` column `revs` and its last entry (the value of
`iloc[-1]`). -/
def forecast_from (revs : List ℚ) (last : ℚ) : ForecastIndicators :=
  { latest_month_revenue := last
    previous_month_revenue :=
      if 1 < revs.length then revs.getD (revs.length - 2) 0 else 0
    avg_monthly := revs.sum / (revs.length : ℚ)
    var_monthly :=
      if 2 ≤ revs.length then
        some (((revs.map
          (fun x => (x - revs.sum / (revs.length : ℚ)) ^ 2)).sum)
          / ((revs.length : ℚ) - 1))
      else none
    trend_direction :=
      if revs.sum / (revs.length : ℚ) < last then "UP" else "DOWN" }

/-- Model of `SalesAnalyzer.get_sales_forecast_indicators`. On an empty
dataset the monthly table is empty and `iloc[-1]` raises `IndexError`,
modelled by the `none` of `getLast?` propagating to the result; it also
inherits the `year_month` write-back of `get_monthly_trends`. -/
def get_sales_forecast_indicators (a : SalesAnalyzer) :
    SalesAnalyzer × Option ForecastIndicators :=
  let m := get_monthly_trends a
  let revs := m.2.map MonthRow.Revenue
  (m.1, revs.getLast?.map (forecast_from revs))

/-- Zero-padded decimal rendering of width `w`, modelling the Python format
specifiers `{i:05d}` and `{x:04d}`. -/
def padNum (w : ℕ) (n : ℕ) : String :=
  let t := toString n
  String.mk (List.replicate (w - t.length) '0') ++ t

/-- The successive draws of a seeded `numpy.random` generator, abstracted:
`ints k` is the `k`-th integer draw of the seeded MT19937 stream and
`reals k` its `k`-th continuous (gamma) draw. The generator is a
deterministic function of the seed; the concrete values are irrelevant to
the claims about `generate_sample_data`. -/
structure NpStreams where
  ints : ℕ → ℕ
  reals : ℕ → ℚ

/-- The columnar dataset produced by `generate_sample_data`. -/
structure GenDataset where
  order_id : List String
  customer_id : List String
  order_date : List ℤ
  amount : List ℚ
  region : List String
  product_category : List String
  quantity : List ℕ
deriving DecidableEq

/-- Model of `generate_sample_data`. `np seed` is the seeded random
stream; bounded draws `randint(lo, hi)` are modelled as `lo + draw % (hi -
lo)` and `choice` over five labels as a draw modulo 5; successive
statements consume disjoint ranges of the stream. `clock i` is the value
of `datetime.now()` (as a day number) at the `i`-th iteration of the date
list comprehension — the source calls `datetime.now()` once per record, so
the dates, `now - timedelta(days=x)`, depend on the wall clock of the call
and not only on the seed. -/
def generate_sample_data (np : ℕ → NpStreams) (n_records seed : ℕ)
    (clock : ℕ → ℤ) : GenDataset :=
  let st := np seed
  let regions := ["North", "South", "East", "West", "Central"]
  let categories := ["Electronics", "Software", "Services", "Hardware", "Consulting"]
  { order_id := (List.range n_records).map (fun i => "ORD-" ++ padNum 5 (i + 1))
    customer_id := (List.range n_records).map
      (fun i => "CUST-" ++ padNum 4 (100 + st.ints (n_records + i) % 400))
    order_date := (List.range n_records).map
      (fun i => clock i - (st.ints i % 365 : ℕ))
    amount := (List.range n_records).map (fun i => round2 (st.reals i))
    region := (List.range n_records).map
      (fun i => regions.getD (st.ints (2 * n_records + i) % 5) "")
    product_category := (List.range n_records).map
      (fun i => categories.getD (st.ints (3 * n_records + i) % 5) "")
    quantity := (List.range n_records).map
      (fun i => 1 + st.ints (4 * n_records + i) % 19) }

/-- A concrete instantiation of the abstract seeded random streams, used
to evaluate `generate_sample_data` at concrete inputs. -/
def npTest : ℕ → NpStreams :=
  fun seed => ⟨fun k => seed + k, fun k => (seed : ℚ) + k⟩

/-- Rounding half to even moves a value by at most one half. -/
theorem abs_roundHalfEven_sub_le (q : ℚ) : |((roundHalfEven q : ℤ) : ℚ) - q| ≤ 1/2 := by
  have h0 : ((⌊q⌋ : ℤ) : ℚ) ≤ q := Int.floor_le q
  have h1 : q < ((⌊q⌋ : ℤ) : ℚ) + 1 := Int.lt_floor_add_one q
  show |((if q - (⌊q⌋ : ℤ) < 1/2 then (⌊q⌋ : ℤ)
      else if 1/2 < q - (⌊q⌋ : ℤ) then ⌊q⌋ + 1
      else if ⌊q⌋ % 2 = 0 then ⌊q⌋ else ⌊q⌋ + 1 : ℤ) : ℚ) - q| ≤ 1/2
  split_ifs with hlt hgt hev
  · exact abs_le.mpr ⟨by linarith, by linarith⟩
  · push_cast
    exact abs_le.mpr ⟨by linarith, by linarith⟩
  · exact abs_le.mpr ⟨by linarith, by linarith⟩
  · push_cast
    exact abs_le.mpr ⟨by linarith, by linarith⟩

/-- The two-decimal rounding of the source moves a value by at most
`1/200`, the rounding tolerance of every rounded column. -/
theorem abs_round2_sub_le (q : ℚ) : |round2 q - q| ≤ 1/200 := by
  have h := abs_roundHalfEven_sub_le (q * 100)
  have h2 : round2 q - q = (((roundHalfEven (q * 100) : ℤ) : ℚ) - q * 100) / 100 := by
    unfold round2; ring
  rw [h2, abs_div]
  rw [show |(100 : ℚ)| = 100 by norm_num]
  linarith [h]

theorem dedupKeep_nodup {α : Type} [DecidableEq α] (l : List α) :
    (dedupKeep l).Nodup := by
  induction l with
  | nil => simp [dedupKeep]
  | cons a t ih =>
    by_cases h : a ∈ dedupKeep t
    · simpa [dedupKeep, h] using ih
    · simpa [dedupKeep, h] using ih

theorem mem_dedupKeep {α : Type} [DecidableEq α] (a : α) (l : List α) :
    a ∈ dedupKeep l ↔ a ∈ l := by
  induction l with
  | nil => simp [dedupKeep]
  | cons b t ih =>
    by_cases h : b ∈ dedupKeep t
    · simp only [dedupKeep, if_pos h, List.mem_cons, ih]
      constructor
      · exact fun hm => Or.inr hm
      · rintro (rfl | hm)
        · exact ih.mp h
        · exact hm
    · simp [dedupKeep, if_neg h, ih]

theorem dedupKeep_eq_nil_iff {α : Type} [DecidableEq α] (l : List α) :
    dedupKeep l = [] ↔ l = [] := by
  induction l with
  | nil => simp [dedupKeep]
  | cons b t ih =>
    simp only [dedupKeep]
    by_cases h : b ∈ dedupKeep t
    · simp only [if_pos h, ih]
      constructor
      · rintro rfl; exact absurd h (by simp [dedupKeep])
      · simp
    · simp [if_neg h]

theorem sortedKeys_perm {α : Type} [DecidableEq α] [LinearOrder α] (l : List α) :
    (sortedKeys l).Perm (dedupKeep l) :=
  List.perm_insertionSort _ _

theorem sortedKeys_nodup {α : Type} [DecidableEq α] [LinearOrder α] (l : List α) :
    (sortedKeys l).Nodup :=
  ((sortedKeys_perm l).nodup_iff).mpr (dedupKeep_nodup l)

theorem mem_sortedKeys {α : Type} [DecidableEq α] [LinearOrder α] (a : α)
    (l : List α) : a ∈ sortedKeys l ↔ a ∈ l := by
  rw [(sortedKeys_perm l).mem_iff, mem_dedupKeep]

theorem sortedKeys_pairwise_lt {α : Type} [DecidableEq α] [LinearOrder α]
    (l : List α) : (sortedKeys l).Pairwise (· < ·) := by
  have hs : (sortedKeys l).Pairwise (· ≤ ·) := List.sorted_insertionSort _ _
  have hn : (sortedKeys l).Pairwise (· ≠ ·) := sortedKeys_nodup l
  exact (hs.and hn).imp (fun h => lt_of_le_of_ne h.1 h.2)

theorem sortedKeys_eq_nil_iff {α : Type} [DecidableEq α] [LinearOrder α]
    (l : List α) : sortedKeys l = [] ↔ l = [] := by
  constructor
  · intro h
    have := (sortedKeys_perm l).length_eq
    rw [h] at this
    have hd : dedupKeep l = [] := List.length_eq_zero.mp this.symm
    exact (dedupKeep_eq_nil_iff l).mp hd
  · intro h; subst h; rfl

theorem sortByDesc_pairwise {α : Type} (f : α → ℚ) (l : List α) :
    (sortByDesc f l).Pairwise (fun a b => f b ≤ f a) := by
  haveI : IsTotal α (fun a b => f b ≤ f a) := ⟨fun a b => le_total (f b) (f a)⟩
  haveI : IsTrans α (fun a b => f b ≤ f a) :=
    ⟨fun a b c h1 h2 => le_trans h2 h1⟩
  exact List.sorted_insertionSort _ l

theorem sortByDesc_perm {α : Type} (f : α → ℚ) (l : List α) :
    (sortByDesc f l).Perm l :=
  List.perm_insertionSort _ l

/-- Summing an indicator over a duplicate-free key list that contains the
key collapses to the single value. -/
theorem sum_map_ite_eq {K M : Type} [DecidableEq K] [AddCommMonoid M]
    (a : K) (c : M) :
    ∀ keys : List K, keys.Nodup → a ∈ keys →
      (keys.map (fun k => if a = k then c else 0)).sum = c := by
  intro keys
  induction keys with
  | nil => simp
  | cons k t ih =>
    intro hn hm
    rcases List.mem_cons.mp hm with rfl | hmt
    · have hnot : ¬ a ∈ t := (List.nodup_cons.mp hn).1
      have hz : (t.map (fun k => if a = k then c else 0)).sum = 0 := by
        apply List.sum_eq_zero
        intro x hx
        rcases List.mem_map.mp hx with ⟨b, hb, rfl⟩
        have hab : a ≠ b := fun h => hnot (h ▸ hb)
        simp [hab]
      simp [hz]
    · have hne : a ≠ k := by
        rintro rfl; exact (List.nodup_cons.mp hn).1 hmt
      simp [hne, ih (List.nodup_cons.mp hn).2 hmt]

/-- The fiberwise-sum (partition) lemma: grouping the rows by a key and
summing a quantity group by group gives the total over all rows, provided
the key list is duplicate-free and covers every row. -/
theorem sum_fiber {α K M : Type} [DecidableEq K] [AddCommMonoid M]
    (key : α → K) (f : α → M) :
    ∀ (rows : List α) (keys : List K), keys.Nodup →
      (∀ r ∈ rows, key r ∈ keys) →
      (keys.map (fun k => ((rows.filter (fun r => key r = k)).map f).sum)).sum
        = (rows.map f).sum := by
  intro rows
  induction rows with
  | nil => intro keys _ _; simp [List.sum_eq_zero]
  | cons r rs ih =>
    intro keys hn hcov
    have hstep : ∀ k : K,
        (((r :: rs).filter (fun x => key x = k)).map f).sum =
          (if key r = k then f r else 0) +
            ((rs.filter (fun x => key x = k)).map f).sum := by
      intro k
      by_cases h : key r = k
      · simp [List.filter_cons, h]
      · simp [List.filter_cons, h]
    rw [List.map_congr_left (fun k _ => hstep k), List.sum_map_add,
      sum_map_ite_eq (key r) (f r) keys hn (hcov r (List.mem_cons_self r rs)),
      ih keys hn (fun x hx => hcov x (List.mem_cons_of_mem r hx))]
    simp

theorem sum_map_one {α : Type} (l : List α) :
    (l.map (fun _ => (1 : ℕ))).sum = l.length := by
  induction l with
  | nil => rfl
  | cons a t ih => simp [ih, Nat.add_comm]

theorem groupAgg_key (key : Row → String) (rows : List Row) (k : String) :
    (groupAgg key rows k).key = k := rfl

theorem groupedTable_map_key_perm (key : Row → String) (rows : List Row) :
    ((groupedTable key rows).map GroupStats.key).Perm
      (sortedKeys (rows.map key)) := by
  have h1 : ((groupedTable key rows).map GroupStats.key).Perm
      (((sortedKeys (rows.map key)).map (groupAgg key rows)).map
        GroupStats.key) :=
    (sortByDesc_perm _ _).map _
  have h2 : ((sortedKeys (rows.map key)).map (groupAgg key rows)).map
      GroupStats.key = sortedKeys (rows.map key) := by
    rw [List.map_map]
    exact (List.map_congr_left (fun k _ => groupAgg_key key rows k)).trans
      (List.map_id _)
  rw [h2] at h1
  exact h1

theorem groupedTable_cover (key : Row → String) (rows : List Row) :
    ∀ r ∈ rows, key r ∈ sortedKeys (rows.map key) := by
  intro r hr
  rw [mem_sortedKeys]
  exact List.mem_map_of_mem key hr

/-- The shared specification of the two grouped analyses: result sorted by
non-increasing revenue, one table row per distinct key, every input row
covered, group transaction counts summing to the row count, and group
amounts (before rounding) summing to the total amount. -/
theorem groupedTable_spec (key : Row → String) (rows : List Row) :
    (groupedTable key rows).Pairwise (fun x y => y.Revenue ≤ x.Revenue) ∧
    ((groupedTable key rows).map GroupStats.key).Nodup ∧
    (∀ r ∈ rows, key r ∈ (groupedTable key rows).map GroupStats.key) ∧
    ((groupedTable key rows).map GroupStats.Transactions).sum = rows.length ∧
    ((sortedKeys (rows.map key)).map
        (fun k => ((groupRows key rows k).map Row.amount).sum)).sum
      = (rows.map Row.amount).sum := by
  refine ⟨sortByDesc_pairwise _ _, ?_, ?_, ?_, ?_⟩
  · rw [(groupedTable_map_key_perm key rows).nodup_iff]
    exact sortedKeys_nodup _
  · intro r hr
    rw [(groupedTable_map_key_perm key rows).mem_iff]
    exact groupedTable_cover key rows r hr
  · have hperm : ((groupedTable key rows).map GroupStats.Transactions).Perm
        (((sortedKeys (rows.map key)).map (groupAgg key rows)).map
          GroupStats.Transactions) :=
      (sortByDesc_perm _ _).map _
    rw [hperm.sum_eq, List.map_map]
    have hpt : (sortedKeys (rows.map key)).map
        (GroupStats.Transactions ∘ groupAgg key rows) =
        (sortedKeys (rows.map key)).map
          (fun k => ((rows.filter (fun r => key r = k)).map
            (fun _ => (1 : ℕ))).sum) := by
      apply List.map_congr_left
      intro k _
      simp [groupAgg, groupRows, sum_map_one]
    rw [hpt, sum_fiber key (fun _ => (1 : ℕ)) rows _ (sortedKeys_nodup _)
      (groupedTable_cover key rows), sum_map_one]
  · have hg : (sortedKeys (rows.map key)).map
        (fun k => ((groupRows key rows k).map Row.amount).sum) =
        (sortedKeys (rows.map key)).map
          (fun k => ((rows.filter (fun r => key r = k)).map Row.amount).sum) :=
      rfl
    rw [hg]
    exact sum_fiber key Row.amount rows _ (sortedKeys_nodup _)
      (groupedTable_cover key rows)

/-- Claim C1: constructing from a table missing any subset of the required
columns is claimed to raise the missing-columns `ValueError` naming exactly
the missing columns. The code evaluates `self.df['order_date']` before
`_validate_data`, so the table of the repository's own
`test_missing_columns_raises_error` (columns `order_id`, `amount` only)
raises `KeyError('order_date')` instead, while `_validate_data` would have
reported the five missing columns; a subset not containing `order_date`
does get the missing-columns error, and the full-column zero-row table
constructs successfully. -/
theorem construction_missing_order_date_gives_keyError :
    mkSalesAnalyzer ⟨["order_id", "amount"], []⟩ =
      .error (.keyError "order_date") ∧
    validate_data ["order_id", "amount"] =
      some (.missingColumns
        ["customer_id", "order_date", "region", "product_category", "quantity"]) ∧
    (∀ l : List String, InitError.keyError "order_date" ≠ .missingColumns l) ∧
    mkSalesAnalyzer ⟨["order_id", "customer_id", "order_date", "amount",
        "region"], []⟩ =
      .error (.missingColumns ["product_category", "quantity"]) ∧
    mkSalesAnalyzer ⟨required_cols, []⟩ = .ok ⟨[], none⟩ := by
  refine ⟨rfl, by decide, fun l => by simp, rfl, rfl⟩

/-- Claim C3: on the validly constructed zero-row dataset,
`get_revenue_summary` returns total revenue 0, transaction count 0, and the
mean, median, min and max order values all evaluate without raising to the
same `NaN` sentinel (`none`), consistently across the four fields. -/
theorem empty_dataset_revenue_summary :
    mkSalesAnalyzer ⟨required_cols, []⟩ = .ok ⟨[], none⟩ ∧
    get_revenue_summary ⟨[], none⟩ =
      { total_revenue := 0
        avg_order_value := none
        median_order_value := none
        min_order_value := none
        max_order_value := none
        total_transactions := 0
        total_units_sold := 0 } := by
  exact ⟨rfl, rfl⟩

/-- Claim C2, counterexample: on the two-row dataset with amounts `1/8`
(= 0.125, whose group sums round half-to-even down to 0.12) in two distinct
regions, the rounded per-group `Revenue` values of
`get_regional_analysis` sum to 0.24, which differs from the unrounded
`total_revenue` 0.25 of `get_revenue_summary`; so the claimed equality of
the rounded group sums with the total does not hold. -/
theorem regional_rounded_revenue_sum_ne_total :
    ((get_regional_analysis ⟨[⟨"o1", "c1", 0, 1/8, "A", "p", 1⟩,
        ⟨"o2", "c2", 0, 1/8, "B", "p", 1⟩], none⟩).map
          GroupStats.Revenue).sum ≠
      (get_revenue_summary ⟨[⟨"o1", "c1", 0, 1/8, "A", "p", 1⟩,
        ⟨"o2", "c2", 0, 1/8, "B", "p", 1⟩], none⟩).total_revenue := by
  have hreg : get_regional_analysis ⟨[⟨"o1", "c1", 0, 1/8, "A", "p", 1⟩,
      ⟨"o2", "c2", 0, 1/8, "B", "p", 1⟩], none⟩ =
      [⟨"A", 3/25, 3/25, 1, 1, 1⟩, ⟨"B", 3/25, 3/25, 1, 1, 1⟩] := by
    simp +decide [get_regional_analysis, groupedTable, sortedKeys,
      dedupKeep, sortByDesc, List.insertionSort, List.orderedInsert,
      groupAgg, groupRows, nuniq, round2, roundHalfEven, List.filter_cons]
    norm_num [Int.fract]
  rw [hreg]
  norm_num [get_revenue_summary]

/-- Claim C2 (amended): for every dataset, `get_regional_analysis` and
`get_product_performance` are sorted non-increasing by `Revenue`, have one
row per distinct key with every input row belonging to exactly one group
(the keys are duplicate-free and cover the rows, and the group transaction
counts sum to the dataset row count), and the per-group amounts before the
2-decimal rounding sum exactly to `get_revenue_summary().total_revenue`;
the rounded `Revenue` values themselves can differ from the total by the
rounding (see the counterexample). -/
theorem regional_product_partition_and_sort (a : SalesAnalyzer) :
    ((get_regional_analysis a).Pairwise (fun x y => y.Revenue ≤ x.Revenue) ∧
      ((get_regional_analysis a).map GroupStats.key).Nodup ∧
      (∀ r ∈ a.rows,
        r.region ∈ (get_regional_analysis a).map GroupStats.key) ∧
      ((get_regional_analysis a).map GroupStats.Transactions).sum
        = a.rows.length ∧
      ((sortedKeys (a.rows.map Row.region)).map
          (fun k => ((groupRows Row.region a.rows k).map Row.amount).sum)).sum
        = (get_revenue_summary a).total_revenue) ∧
    ((get_product_performance a).Pairwise
        (fun x y => y.Revenue ≤ x.Revenue) ∧
      ((get_product_performance a).map GroupStats.key).Nodup ∧
      (∀ r ∈ a.rows,
        r.product_category ∈ (get_product_performance a).map GroupStats.key) ∧
      ((get_product_performance a).map GroupStats.Transactions).sum
        = a.rows.length ∧
      ((sortedKeys (a.rows.map Row.product_category)).map
          (fun k => ((groupRows Row.product_category a.rows k).map
            Row.amount).sum)).sum
        = (get_revenue_summary a).total_revenue) :=
  ⟨groupedTable_spec Row.region a.rows,
   groupedTable_spec Row.product_category a.rows⟩

theorem add_growth_map_ym : ∀ (p : Option ℚ) (l : List MonthRow),
    (add_growth p l).map MonthRow.year_month = l.map MonthRow.year_month := by
  intro p l
  induction l generalizing p with
  | nil => cases p <;> rfl
  | cons m t ih => cases p <;> simp [add_growth, set_growth, ih]

theorem add_growth_length : ∀ (p : Option ℚ) (l : List MonthRow),
    (add_growth p l).length = l.length := by
  intro p l
  induction l generalizing p with
  | nil => cases p <;> rfl
  | cons m t ih => cases p <;> simp [add_growth, set_growth, ih]

theorem add_growth_getD_Revenue : ∀ (p : Option ℚ) (l : List MonthRow) (i : ℕ),
    ((add_growth p l).getD i mrow0).Revenue = (l.getD i mrow0).Revenue := by
  intro p l
  induction l generalizing p with
  | nil => intro i; cases p <;> rfl
  | cons m t ih =>
    intro i
    cases i with
    | zero => cases p <;> simp [add_growth, set_growth]
    | succ j =>
      cases p <;>
        simpa [add_growth, List.getD_cons_succ] using ih (some m.Revenue) j

theorem add_growth_getD_succ_mom : ∀ (l : List MonthRow) (p : Option ℚ) (i : ℕ),
    i + 1 < l.length →
    ((add_growth p l).getD (i + 1) mrow0).MoM_Growth =
      (if (l.getD i mrow0).Revenue = 0 then none
       else some (round2 (((l.getD (i + 1) mrow0).Revenue -
         (l.getD i mrow0).Revenue) / (l.getD i mrow0).Revenue * 100))) := by
  intro l
  induction l with
  | nil => intro p i h; simp at h
  | cons m t ih =>
    intro p i h
    cases i with
    | zero =>
      cases t with
      | nil => simp at h
      | cons m2 t2 =>
        cases p <;>
          simp [add_growth, set_growth, List.getD_cons_zero, List.getD_cons_succ]
    | succ j =>
      have hj : j + 1 < t.length := by
        simpa using h
      cases p <;>
        simpa [add_growth, List.getD_cons_succ] using ih (some m.Revenue) j hj

theorem monthly_trends_map_ym (rows : List Row) :
    (monthly_trends rows).map MonthRow.year_month =
      sortedKeys (rows.map (fun r => civilYM r.order_date)) := by
  unfold monthly_trends
  rw [add_growth_map_ym, List.map_map]
  exact (List.map_congr_left (fun k _ => rfl)).trans (List.map_id' _)

theorem monthly_trends_length (rows : List Row) :
    (monthly_trends rows).length =
      (sortedKeys (rows.map (fun r => civilYM r.order_date))).length := by
  unfold monthly_trends
  rw [add_growth_length, List.length_map]

theorem monthly_trends_eq_nil_iff (rows : List Row) :
    monthly_trends rows = [] ↔ rows = [] := by
  constructor
  · intro h
    have hl := monthly_trends_length rows
    rw [h] at hl
    have hk : sortedKeys (rows.map (fun r => civilYM r.order_date)) = [] :=
      List.length_eq_zero.mp hl.symm
    have := (sortedKeys_eq_nil_iff _).mp hk
    exact List.map_eq_nil_iff.mp this
  · intro h; subst h; rfl

theorem monthly_trends_head_mom (rows : List Row) :
    ∀ hd, (monthly_trends rows).head? = some hd → hd.MoM_Growth = none := by
  intro hd
  unfold monthly_trends
  cases hk : sortedKeys (rows.map (fun r => civilYM r.order_date)) with
  | nil => simp [add_growth]
  | cons k ks =>
    simp only [List.map, add_growth, List.head?, Option.some.injEq]
    intro h
    subst h
    rfl

theorem monthly_trends_filterMap_single (rows : List Row) :
    (monthly_trends rows).length ≤ 1 →
    (monthly_trends rows).filterMap MonthRow.MoM_Growth = [] := by
  intro h
  rcases hm : monthly_trends rows with _ | ⟨x, t⟩
  · rfl
  · have ht : t = [] := by
      rw [hm] at h
      simp only [List.length_cons] at h
      exact List.length_eq_zero.mp (by omega)
    subst ht
    have hx : x.MoM_Growth = none := by
      apply monthly_trends_head_mom rows
      rw [hm]; rfl
    simp [List.filterMap, hx]

/-- Claim C4: in the `get_monthly_trends` result, the rows are ordered by
strictly ascending calendar year-month; the first row's month-over-month
growth is the missing value `none` (not zero, not an error); and every
later row whose previous month has nonzero revenue carries the growth
`(Revenue[i] - Revenue[i-1]) / Revenue[i-1] * 100` of the `Revenue`
column, exact up to the final 2-decimal rounding, whose error is at most
`1/200`. -/
theorem monthly_trends_growth_spec (a : SalesAnalyzer) :
    (((get_monthly_trends a).2).map MonthRow.year_month).Pairwise (· < ·) ∧
    (∀ hd, ((get_monthly_trends a).2).head? = some hd →
      hd.MoM_Growth = none) ∧
    (∀ i, i + 1 < ((get_monthly_trends a).2).length →
      (((get_monthly_trends a).2).getD i mrow0).Revenue ≠ 0 →
      (((get_monthly_trends a).2).getD (i + 1) mrow0).MoM_Growth =
        some (round2 (((((get_monthly_trends a).2).getD (i + 1) mrow0).Revenue -
          (((get_monthly_trends a).2).getD i mrow0).Revenue) /
          (((get_monthly_trends a).2).getD i mrow0).Revenue * 100)) ∧
      |round2 (((((get_monthly_trends a).2).getD (i + 1) mrow0).Revenue -
          (((get_monthly_trends a).2).getD i mrow0).Revenue) /
          (((get_monthly_trends a).2).getD i mrow0).Revenue * 100) -
        (((((get_monthly_trends a).2).getD (i + 1) mrow0).Revenue -
          (((get_monthly_trends a).2).getD i mrow0).Revenue) /
          (((get_monthly_trends a).2).getD i mrow0).Revenue * 100)| ≤ 1/200) := by
  refine ⟨?_, ?_, ?_⟩
  · have h := monthly_trends_map_ym a.rows
    show ((monthly_trends a.rows).map MonthRow.year_month).Pairwise (· < ·)
    rw [h]
    exact sortedKeys_pairwise_lt _
  · exact monthly_trends_head_mom a.rows
  · intro i hi hrev
    have hi2 : i + 1 < (monthly_trends a.rows).length := hi
    have hlen : i + 1 <
        ((sortedKeys (a.rows.map (fun r => civilYM r.order_date))).map
          (month_agg a.rows)).length := by
      have hml := monthly_trends_length a.rows
      simp only [List.length_map]
      omega
    have hkey := add_growth_getD_succ_mom
      ((sortedKeys (a.rows.map (fun r => civilYM r.order_date))).map
        (month_agg a.rows)) none i (by simpa using hlen)
    have hrev0 := add_growth_getD_Revenue none
      ((sortedKeys (a.rows.map (fun r => civilYM r.order_date))).map
        (month_agg a.rows)) i
    have hrev1 := add_growth_getD_Revenue none
      ((sortedKeys (a.rows.map (fun r => civilYM r.order_date))).map
        (month_agg a.rows)) (i + 1)
    have hmt : (get_monthly_trends a).2 =
        add_growth none
          ((sortedKeys (a.rows.map (fun r => civilYM r.order_date))).map
            (month_agg a.rows)) := rfl
    constructor
    · rw [hmt, hkey, ← hrev0, ← hmt, if_neg hrev, ← hrev1, ← hmt]
    · exact abs_round2_sub_le _

/-- Claim C10: every analysis method is idempotent in the analyzer state:
running a method a second time on the state left by the first run returns
the same state and result; no method changes the `rows` (the seven
required columns) — the only write is the derived `year_month` column of
`get_monthly_trends` (and of the two methods calling it), which is
recomputed from the unchanged rows and therefore stable; and every
analysis result is unaffected by that write. -/
theorem analysis_methods_idempotent_frame (a : SalesAnalyzer) (n : ℕ) :
    ((get_monthly_trends a).1).rows = a.rows ∧
    get_monthly_trends ((get_monthly_trends a).1) = get_monthly_trends a ∧
    ((get_key_metrics a).1).rows = a.rows ∧
    get_key_metrics ((get_key_metrics a).1) = get_key_metrics a ∧
    ((get_sales_forecast_indicators a).1).rows = a.rows ∧
    get_sales_forecast_indicators ((get_sales_forecast_indicators a).1) =
      get_sales_forecast_indicators a ∧
    get_revenue_summary ((get_monthly_trends a).1) = get_revenue_summary a ∧
    get_regional_analysis ((get_monthly_trends a).1) =
      get_regional_analysis a ∧
    get_product_performance ((get_monthly_trends a).1) =
      get_product_performance a ∧
    get_customer_segmentation ((get_monthly_trends a).1) =
      get_customer_segmentation a ∧
    get_top_customers ((get_monthly_trends a).1) n = get_top_customers a n ∧
    get_cohort_analysis ((get_monthly_trends a).1) = get_cohort_analysis a :=
  ⟨rfl, rfl, rfl, rfl, rfl, rfl, rfl, rfl, rfl, rfl, rfl, rfl⟩

/-- Claim C4, witness: on a concrete two-month dataset (amount 1 in
January 1970, amount 2 in February 1970) the hypotheses of the growth
theorem hold at `i = 0`, and the second month's growth is the rounded
`(2 - 1) / 1 * 100`. -/
theorem monthly_trends_growth_witness :
    0 + 1 < ((get_monthly_trends ⟨[⟨"o1", "c1", 0, 1, "A", "p", 1⟩,
      ⟨"o2", "c2", 31, 2, "A", "p", 1⟩], none⟩).2).length ∧
    (((get_monthly_trends ⟨[⟨"o1", "c1", 0, 1, "A", "p", 1⟩,
      ⟨"o2", "c2", 31, 2, "A", "p", 1⟩], none⟩).2).getD 0 mrow0).Revenue ≠ 0 ∧
    (((get_monthly_trends ⟨[⟨"o1", "c1", 0, 1, "A", "p", 1⟩,
      ⟨"o2", "c2", 31, 2, "A", "p", 1⟩], none⟩).2).getD (0 + 1)
        mrow0).MoM_Growth =
      some (round2
        (((((get_monthly_trends ⟨[⟨"o1", "c1", 0, 1, "A", "p", 1⟩,
            ⟨"o2", "c2", 31, 2, "A", "p", 1⟩], none⟩).2).getD (0 + 1)
              mrow0).Revenue -
          (((get_monthly_trends ⟨[⟨"o1", "c1", 0, 1, "A", "p", 1⟩,
            ⟨"o2", "c2", 31, 2, "A", "p", 1⟩], none⟩).2).getD 0
              mrow0).Revenue) /
          (((get_monthly_trends ⟨[⟨"o1", "c1", 0, 1, "A", "p", 1⟩,
            ⟨"o2", "c2", 31, 2, "A", "p", 1⟩], none⟩).2).getD 0
              mrow0).Revenue * 100)) := by
  have hm : (get_monthly_trends ⟨[⟨"o1", "c1", 0, 1, "A", "p", 1⟩,
      ⟨"o2", "c2", 31, 2, "A", "p", 1⟩], none⟩).2 =
      [⟨23640, 1, 1, 1, 1, none⟩, ⟨23641, 2, 2, 1, 1, some 100⟩] := by
    show monthly_trends _ = _
    simp +decide [monthly_trends, sortedKeys, dedupKeep, month_agg,
      month_group, add_growth, set_growth, civilYM, round2, roundHalfEven,
      List.filter_cons, List.insertionSort, List.orderedInsert]
    norm_num [Int.fract]
  have h1 : 0 + 1 < ((get_monthly_trends ⟨[⟨"o1", "c1", 0, 1, "A", "p", 1⟩,
      ⟨"o2", "c2", 31, 2, "A", "p", 1⟩], none⟩).2).length := by
    rw [hm]; decide
  have h2 : (((get_monthly_trends ⟨[⟨"o1", "c1", 0, 1, "A", "p", 1⟩,
      ⟨"o2", "c2", 31, 2, "A", "p", 1⟩], none⟩).2).getD 0 mrow0).Revenue
        ≠ 0 := by
    rw [hm]
    norm_num [List.getD_cons_zero]
  exact ⟨h1, h2, ((monthly_trends_growth_spec ⟨[⟨"o1", "c1", 0, 1, "A", "p", 1⟩,
    ⟨"o2", "c2", 31, 2, "A", "p", 1⟩], none⟩).2.2 0 h1 h2).1⟩

/-- Claim C8: `get_key_metrics` computes `Revenue_Per_Customer` as the
total revenue over the distinct customer count; with zero customers the
`0 / 0` divisions of `Revenue_Per_Customer` and `Repeat_Customer_Rate_%`
are the float `NaN` (modelled `none`), not an uncaught arithmetic error;
and with fewer than two months the month-over-month growth mean averages
an all-`NaN` column and is likewise `NaN`, not an error. -/
theorem key_metrics_division_guards (a : SalesAnalyzer) :
    ((get_key_metrics a).2).Customer_Count =
      nuniq (a.rows.map Row.customer_id) ∧
    (nuniq (a.rows.map Row.customer_id) = 0 →
      ((get_key_metrics a).2).Revenue_Per_Customer = none ∧
      ((get_key_metrics a).2).Repeat_Customer_Rate = none) ∧
    (nuniq (a.rows.map Row.customer_id) ≠ 0 →
      ((get_key_metrics a).2).Revenue_Per_Customer =
        some ((a.rows.map Row.amount).sum /
          (nuniq (a.rows.map Row.customer_id) : ℚ))) ∧
    ((monthly_trends a.rows).length ≤ 1 →
      ((get_key_metrics a).2).Growth_Rate = none) := by
  refine ⟨rfl, ?_, ?_, ?_⟩
  · intro h
    constructor
    · show (if nuniq (a.rows.map Row.customer_id) = 0 then none else _) = none
      rw [if_pos h]
    · show (if nuniq (a.rows.map Row.customer_id) = 0 then none else _) = none
      rw [if_pos h]
  · intro h
    show (if nuniq (a.rows.map Row.customer_id) = 0 then none else _) = _
    rw [if_neg h]
  · intro h
    show meanQ ((monthly_trends a.rows).filterMap MonthRow.MoM_Growth) = none
    rw [monthly_trends_filterMap_single a.rows h]
    rfl

/-- Claim C8, witness: on the empty dataset the customer count is zero and
all three guarded metrics are the `NaN` sentinel. -/
theorem key_metrics_division_guards_witness :
    nuniq (([] : List Row).map Row.customer_id) = 0 ∧
    (monthly_trends []).length ≤ 1 ∧
    ((get_key_metrics ⟨[], none⟩).2).Revenue_Per_Customer = none ∧
    ((get_key_metrics ⟨[], none⟩).2).Repeat_Customer_Rate = none ∧
    ((get_key_metrics ⟨[], none⟩).2).Growth_Rate = none := by
  have h0 : nuniq (([] : List Row).map Row.customer_id) = 0 := rfl
  have h1 : (monthly_trends ([] : List Row)).length ≤ 1 := by decide
  refine ⟨h0, h1, ?_, ?_, ?_⟩
  · exact ((key_metrics_division_guards ⟨[], none⟩).2.1 h0).1
  · exact ((key_metrics_division_guards ⟨[], none⟩).2.1 h0).2
  · exact (key_metrics_division_guards ⟨[], none⟩).2.2.2 h1

/-- Claim C9: `get_sales_forecast_indicators` produces no value on the
empty dataset (the `iloc[-1]` lookup fails, modelled `none`) and a value
on every nonempty dataset; when exactly one month of data exists the
previous-month revenue is 0; and the trend direction is `UP` exactly when
the latest month's revenue strictly exceeds the mean of all monthly
revenues, `DOWN` otherwise. -/
theorem forecast_indicators_spec (a : SalesAnalyzer) :
    (a.rows = [] → (get_sales_forecast_indicators a).2 = none) ∧
    (a.rows ≠ [] → ∃ fi, (get_sales_forecast_indicators a).2 = some fi) ∧
    (∀ fi, (get_sales_forecast_indicators a).2 = some fi →
      ((monthly_trends a.rows).length = 1 → fi.previous_month_revenue = 0) ∧
      (fi.trend_direction = "UP" ↔
        ((monthly_trends a.rows).map MonthRow.Revenue).sum /
          ((((monthly_trends a.rows).map MonthRow.Revenue).length : ℕ) : ℚ) <
          fi.latest_month_revenue) ∧
      (fi.trend_direction = "UP" ∨ fi.trend_direction = "DOWN")) := by
  have hshow : (get_sales_forecast_indicators a).2 =
      (((monthly_trends a.rows).map MonthRow.Revenue).getLast?).map
        (forecast_from ((monthly_trends a.rows).map MonthRow.Revenue)) := rfl
  refine ⟨?_, ?_, ?_⟩
  · intro h
    have hnil : monthly_trends a.rows = [] :=
      (monthly_trends_eq_nil_iff a.rows).mpr h
    rw [hshow, hnil]
    rfl
  · intro h
    have hne : monthly_trends a.rows ≠ [] :=
      fun hc => h ((monthly_trends_eq_nil_iff a.rows).mp hc)
    have hrne : (monthly_trends a.rows).map MonthRow.Revenue ≠ [] := by
      simpa using hne
    obtain ⟨last, hL⟩ :=
      Option.isSome_iff_exists.mp (List.getLast?_isSome.mpr hrne)
    refine ⟨forecast_from ((monthly_trends a.rows).map MonthRow.Revenue) last,
      ?_⟩
    rw [hshow, hL, Option.map_some']
  · intro fi hfi
    rw [hshow] at hfi
    rcases hL : ((monthly_trends a.rows).map MonthRow.Revenue).getLast?
      with _ | last
    · rw [hL] at hfi
      simp at hfi
    · rw [hL, Option.map_some', Option.some.injEq] at hfi
      subst hfi
      refine ⟨?_, ?_, ?_⟩
      · intro hlen
        show (if 1 < ((monthly_trends a.rows).map MonthRow.Revenue).length
            then _ else 0) = 0
        rw [if_neg]
        rw [List.length_map, hlen]
        omega
      · show (if ((monthly_trends a.rows).map MonthRow.Revenue).sum /
            (((monthly_trends a.rows).map MonthRow.Revenue).length : ℚ) < last
            then "UP" else "DOWN") = "UP" ↔ _
        split_ifs with hc
        · simpa using hc
        · constructor
          · intro h; exact absurd h (by decide)
          · intro h; exact absurd h (by simpa using hc)
      · show (if ((monthly_trends a.rows).map MonthRow.Revenue).sum /
            (((monthly_trends a.rows).map MonthRow.Revenue).length : ℚ) < last
            then "UP" else "DOWN") = "UP" ∨
          (if ((monthly_trends a.rows).map MonthRow.Revenue).sum /
            (((monthly_trends a.rows).map MonthRow.Revenue).length : ℚ) < last
            then "UP" else "DOWN") = "DOWN"
        split_ifs
        · exact Or.inl rfl
        · exact Or.inr rfl

/-- Claim C9, witness: on a concrete one-month dataset the indicators
exist, the previous-month revenue is 0 (only one month), and the trend
direction is one of `UP` and `DOWN`. -/
theorem forecast_indicators_witness :
    (monthly_trends [⟨"o1", "c1", 0, 5, "A", "p", 1⟩]).length = 1 ∧
    (get_sales_forecast_indicators
        ⟨[⟨"o1", "c1", 0, 5, "A", "p", 1⟩], none⟩).2 =
      some (forecast_from
        ((monthly_trends [⟨"o1", "c1", 0, 5, "A", "p", 1⟩]).map
          MonthRow.Revenue) 5) ∧
    (forecast_from ((monthly_trends [⟨"o1", "c1", 0, 5, "A", "p", 1⟩]).map
        MonthRow.Revenue) 5).previous_month_revenue = 0 ∧
    ((forecast_from ((monthly_trends [⟨"o1", "c1", 0, 5, "A", "p", 1⟩]).map
        MonthRow.Revenue) 5).trend_direction = "UP" ∨
      (forecast_from ((monthly_trends [⟨"o1", "c1", 0, 5, "A", "p", 1⟩]).map
        MonthRow.Revenue) 5).trend_direction = "DOWN") := by
  have hlen : (monthly_trends [⟨"o1", "c1", 0, 5, "A", "p", 1⟩]).length = 1 := by
    decide
  have hrevs : (monthly_trends [⟨"o1", "c1", 0, 5, "A", "p", 1⟩]).map
      MonthRow.Revenue = [5] := by
    simp +decide [monthly_trends, sortedKeys, dedupKeep, month_agg,
      month_group, add_growth, set_growth, civilYM, round2, roundHalfEven,
      List.filter_cons, List.insertionSort, List.orderedInsert]
    norm_num [Int.fract]
  have hfi : (get_sales_forecast_indicators
      ⟨[⟨"o1", "c1", 0, 5, "A", "p", 1⟩], none⟩).2 =
      some (forecast_from
        ((monthly_trends [⟨"o1", "c1", 0, 5, "A", "p", 1⟩]).map
          MonthRow.Revenue) 5) := by
    show (((monthly_trends [⟨"o1", "c1", 0, 5, "A", "p", 1⟩]).map
        MonthRow.Revenue).getLast?).map
        (forecast_from ((monthly_trends [⟨"o1", "c1", 0, 5, "A", "p", 1⟩]).map
          MonthRow.Revenue)) = _
    rw [hrevs]
    rfl
  have hspec := (forecast_indicators_spec
    ⟨[⟨"o1", "c1", 0, 5, "A", "p", 1⟩], none⟩).2.2 _ hfi
  exact ⟨hlen, hfi, hspec.1 hlen, hspec.2.2⟩

theorem sorted_getD_mono (s : List ℚ) (hs : s.Sorted (· ≤ ·)) (i j : ℕ)
    (hij : i ≤ j) (hj : j < s.length) : s.getD i 0 ≤ s.getD j 0 := by
  have hi : i < s.length := lt_of_le_of_lt hij hj
  rw [List.getD_eq_get _ _ hi, List.getD_eq_get _ _ hj]
  rcases lt_or_eq_of_le hij with hlt | rfl
  · exact hs.rel_get_of_lt hlt
  · rfl

theorem interp_lower (s : List ℚ) (hs : s.Sorted (· ≤ ·)) (i : ℕ) (g : ℚ)
    (hg : 0 ≤ g) (hcase : g = 0 ∨ i + 1 < s.length) :
    s.getD i 0 ≤ s.getD i 0 + g * (s.getD (i + 1) 0 - s.getD i 0) := by
  rcases hcase with rfl | hin
  · simp
  · have hm := sorted_getD_mono s hs i (i + 1) (Nat.le_succ i) hin
    have hprod := mul_nonneg hg (sub_nonneg.mpr hm)
    linarith

theorem interp_upper (s : List ℚ) (hs : s.Sorted (· ≤ ·)) (i : ℕ) (g : ℚ)
    (hg0 : 0 ≤ g) (hg1 : g ≤ 1) (hin : i + 1 < s.length) :
    s.getD i 0 + g * (s.getD (i + 1) 0 - s.getD i 0) ≤ s.getD (i + 1) 0 := by
  have hm := sorted_getD_mono s hs i (i + 1) (Nat.le_succ i) hin
  have hprod := mul_le_mul_of_nonneg_right hg1 (sub_nonneg.mpr hm)
  linarith

/-- `Series.quantile` with linear interpolation is monotone in the
requested probability, so the 25th, 50th and 75th percentile thresholds of
the segmentation are ordered. -/
theorem quantileQ_mono (xs : List ℚ) (hne : xs ≠ []) {p q : ℚ}
    (hp : 0 ≤ p) (hq1 : q ≤ 1) (hpq : p ≤ q) :
    quantileQ xs p ≤ quantileQ xs q := by
  have hs : (List.insertionSort (· ≤ ·) xs).Sorted (· ≤ ·) :=
    List.sorted_insertionSort _ _
  set s := List.insertionSort (· ≤ ·) xs with hsdef
  have hn : 1 ≤ s.length := by
    have hp1 : 0 < xs.length := List.length_pos.mpr hne
    have hxlen : s.length = xs.length :=
      (List.perm_insertionSort (fun a b : ℚ => a ≤ b) xs).length_eq
    omega
  have hn1 : (0 : ℚ) ≤ (s.length : ℚ) - 1 := by
    have h1 : (1 : ℚ) ≤ (s.length : ℚ) := by exact_mod_cast hn
    linarith
  set h1 : ℚ := p * ((s.length : ℚ) - 1) with hh1def
  set h2 : ℚ := q * ((s.length : ℚ) - 1) with hh2def
  have hq0 : 0 ≤ q := le_trans hp hpq
  have hh1nn : 0 ≤ h1 := mul_nonneg hp hn1
  have hh2nn : 0 ≤ h2 := mul_nonneg hq0 hn1
  have hh12 : h1 ≤ h2 := mul_le_mul_of_nonneg_right hpq hn1
  have hh2top : h2 ≤ (s.length : ℚ) - 1 := by
    have := mul_le_mul_of_nonneg_right hq1 hn1
    simpa using this
  have hf1nn : (0 : ℤ) ≤ ⌊h1⌋ := Int.floor_nonneg.mpr hh1nn
  have hf2nn : (0 : ℤ) ≤ ⌊h2⌋ := Int.floor_nonneg.mpr hh2nn
  set i1 : ℕ := (⌊h1⌋).toNat with hi1def
  set i2 : ℕ := (⌊h2⌋).toNat with hi2def
  have hi1c : ((i1 : ℕ) : ℚ) = ((⌊h1⌋ : ℤ) : ℚ) := by
    rw [hi1def]; exact_mod_cast Int.toNat_of_nonneg hf1nn
  have hi2c : ((i2 : ℕ) : ℚ) = ((⌊h2⌋ : ℤ) : ℚ) := by
    rw [hi2def]; exact_mod_cast Int.toNat_of_nonneg hf2nn
  have hi1le : (i1 : ℚ) ≤ h1 := by
    rw [hi1c]; exact Int.floor_le h1
  have hi1gt : h1 < (i1 : ℚ) + 1 := by
    rw [hi1c]; exact Int.lt_floor_add_one h1
  have hi2le : (i2 : ℚ) ≤ h2 := by
    rw [hi2c]; exact Int.floor_le h2
  have hi2gt : h2 < (i2 : ℚ) + 1 := by
    rw [hi2c]; exact Int.lt_floor_add_one h2
  have hi2lt : i2 < s.length := by
    have hc : (i2 : ℚ) ≤ (s.length : ℚ) - 1 := le_trans hi2le hh2top
    have hc2 : (i2 : ℚ) + 1 ≤ (s.length : ℚ) := by linarith
    have : (i2 : ℕ) + 1 ≤ s.length := by exact_mod_cast hc2
    omega
  have hv1 : quantileQ xs p =
      s.getD i1 0 + (h1 - ((⌊h1⌋ : ℤ) : ℚ)) *
        (s.getD (i1 + 1) 0 - s.getD i1 0) := rfl
  have hv2 : quantileQ xs q =
      s.getD i2 0 + (h2 - ((⌊h2⌋ : ℤ) : ℚ)) *
        (s.getD (i2 + 1) 0 - s.getD i2 0) := rfl
  set g1 : ℚ := h1 - ((⌊h1⌋ : ℤ) : ℚ) with hg1def
  set g2 : ℚ := h2 - ((⌊h2⌋ : ℤ) : ℚ) with hg2def
  have hg1nn : 0 ≤ g1 := by
    rw [hg1def]; linarith [Int.floor_le h1]
  have hg2nn : 0 ≤ g2 := by
    rw [hg2def]; linarith [Int.floor_le h2]
  have hg1lt : g1 < 1 := by
    rw [hg1def]; linarith [Int.lt_floor_add_one h1]
  have hg2lt : g2 < 1 := by
    rw [hg2def]; linarith [Int.lt_floor_add_one h2]
  have hg2pos_range : 0 < g2 → i2 + 1 < s.length := by
    intro hpos
    have hstrict : (i2 : ℚ) < h2 := by
      rw [hi2c]
      linarith [hpos, hg2def]
    have hc : (i2 : ℚ) < (s.length : ℚ) - 1 := lt_of_lt_of_le hstrict hh2top
    have hc2 : (i2 : ℚ) + 1 < (s.length : ℚ) := by linarith
    have hc3 : (i2 : ℕ) + 1 < s.length := by exact_mod_cast hc2
    omega
  rw [hv1, hv2]
  have hfloorle : ⌊h1⌋ ≤ ⌊h2⌋ := Int.floor_le_floor hh12
  have hi12 : i1 ≤ i2 := by
    rw [hi1def, hi2def]
    exact Int.toNat_le_toNat hfloorle
  rcases Nat.lt_or_ge i1 i2 with hlt | hge
  · -- different floor segments
    have hstep1 : s.getD i1 0 + g1 * (s.getD (i1 + 1) 0 - s.getD i1 0) ≤
        s.getD i2 0 := by
      rcases eq_or_lt_of_le hg1nn with hz | hpos
      · rw [← hz]
        simpa using sorted_getD_mono s hs i1 i2 hi12 hi2lt
      · have hi1in : i1 + 1 < s.length := lt_of_le_of_lt hlt hi2lt
        have hup := interp_upper s hs i1 g1 hg1nn (le_of_lt hg1lt) hi1in
        have hmono := sorted_getD_mono s hs (i1 + 1) i2 hlt hi2lt
        linarith
    have hstep2 : s.getD i2 0 ≤
        s.getD i2 0 + g2 * (s.getD (i2 + 1) 0 - s.getD i2 0) := by
      apply interp_lower s hs i2 g2 hg2nn
      rcases eq_or_lt_of_le hg2nn with hz | hpos
      · exact Or.inl hz.symm
      · exact Or.inr (hg2pos_range hpos)
    linarith
  · -- same floor segment
    have heq : i1 = i2 := le_antisymm hi12 hge
    have hfeq : ⌊h1⌋ = ⌊h2⌋ := by
      have e1 := Int.toNat_of_nonneg hf1nn
      have e2 := Int.toNat_of_nonneg hf2nn
      rw [hi1def, hi2def] at heq
      omega
    have hg12 : g1 ≤ g2 := by
      rw [hg1def, hg2def, hfeq]
      linarith
    rw [heq]
    rcases eq_or_lt_of_le hg2nn with hz | hpos
    · have hg1z : g1 = 0 := le_antisymm (by linarith) hg1nn
      rw [hg1z, ← hz]
    · have hin : i2 + 1 < s.length := hg2pos_range hpos
      have hm := sorted_getD_mono s hs i2 (i2 + 1) (Nat.le_succ i2) hin
      have hprod := mul_le_mul_of_nonneg_right hg12 (sub_nonneg.mpr hm)
      linarith

theorem customer_agg_id (rows : List Row) (c : String) :
    (customer_agg rows c).customer_id = c := rfl

theorem segmentation_map_id_perm (a : SalesAnalyzer) :
    ((get_customer_segmentation a).map CustomerRow.customer_id).Perm
      (sortedKeys (a.rows.map Row.customer_id)) := by
  have h1 : ((get_customer_segmentation a).map CustomerRow.customer_id).Perm
      (((sortedKeys (a.rows.map Row.customer_id)).map
        (customer_agg a.rows)).map CustomerRow.customer_id) :=
    (sortByDesc_perm _ _).map _
  have h2 : ((sortedKeys (a.rows.map Row.customer_id)).map
      (customer_agg a.rows)).map CustomerRow.customer_id =
      sortedKeys (a.rows.map Row.customer_id) := by
    rw [List.map_map]
    exact (List.map_congr_left
      (fun k _ => customer_agg_id a.rows k)).trans (List.map_id _)
  rw [h2] at h1
  exact h1

theorem ltv_population_ne_nil (rows : List Row) (h : rows ≠ []) :
    ltv_population rows ≠ [] := by
  unfold ltv_population
  intro hc
  have h1 : sortedKeys (rows.map Row.customer_id) = [] :=
    List.map_eq_nil_iff.mp hc
  have h2 : rows.map Row.customer_id = [] := (sortedKeys_eq_nil_iff _).mp h1
  exact h (List.map_eq_nil_iff.mp h2)

/-- Claim C5: for a nonempty dataset, `get_customer_segmentation` has
exactly one row per distinct customer (duplicate-free ids covering every
input row), the segment of every row is the label determined by the
quartile thresholds of the lifetime values of the full customer
population — strictly above the 75th percentile `VIP`, above the 50th and
at most the 75th `Premium`, above the 25th and at most the 50th
`Standard`, at most the 25th `New` — so each customer gets exactly one of
the four labels, and the result is sorted by non-increasing lifetime
value. -/
theorem customer_segmentation_spec (a : SalesAnalyzer) (h : a.rows ≠ []) :
    ((get_customer_segmentation a).map CustomerRow.customer_id).Nodup ∧
    (∀ r ∈ a.rows, r.customer_id ∈
      (get_customer_segmentation a).map CustomerRow.customer_id) ∧
    (∀ c ∈ get_customer_segmentation a,
      (quantileQ (ltv_population a.rows) (3/4) < c.lifetime_value →
        c.segment = "VIP") ∧
      (c.lifetime_value ≤ quantileQ (ltv_population a.rows) (3/4) →
        quantileQ (ltv_population a.rows) (1/2) < c.lifetime_value →
        c.segment = "Premium") ∧
      (c.lifetime_value ≤ quantileQ (ltv_population a.rows) (1/2) →
        quantileQ (ltv_population a.rows) (1/4) < c.lifetime_value →
        c.segment = "Standard") ∧
      (c.lifetime_value ≤ quantileQ (ltv_population a.rows) (1/4) →
        c.segment = "New") ∧
      (c.segment = "VIP" ∨ c.segment = "Premium" ∨
        c.segment = "Standard" ∨ c.segment = "New")) ∧
    (get_customer_segmentation a).Pairwise
      (fun x y => y.lifetime_value ≤ x.lifetime_value) := by
  have hpop : ltv_population a.rows ≠ [] := ltv_population_ne_nil a.rows h
  have h5075 : quantileQ (ltv_population a.rows) (1/2) ≤
      quantileQ (ltv_population a.rows) (3/4) :=
    quantileQ_mono _ hpop (by norm_num) (by norm_num) (by norm_num)
  have h2550 : quantileQ (ltv_population a.rows) (1/4) ≤
      quantileQ (ltv_population a.rows) (1/2) :=
    quantileQ_mono _ hpop (by norm_num) (by norm_num) (by norm_num)
  refine ⟨?_, ?_, ?_, sortByDesc_pairwise _ _⟩
  · rw [(segmentation_map_id_perm a).nodup_iff]
    exact sortedKeys_nodup _
  · intro r hr
    rw [(segmentation_map_id_perm a).mem_iff, mem_sortedKeys]
    exact List.mem_map_of_mem Row.customer_id hr
  · intro c hc
    have hc2 : c ∈ (sortedKeys (a.rows.map Row.customer_id)).map
        (customer_agg a.rows) := (sortByDesc_perm _ _).mem_iff.mp hc
    obtain ⟨k, hk, hck⟩ := List.mem_map.mp hc2
    subst hck
    refine ⟨?_, ?_, ?_, ?_, ?_⟩
    · intro h75
      have h75x : quantileQ (ltv_population a.rows) (3/4) <
          ltv a.rows k := h75
      show segment_of (ltv_population a.rows) (ltv a.rows k) = "VIP"
      unfold segment_of
      rw [if_pos h75x]
    · intro hle hgt
      have hlex : ltv a.rows k ≤
          quantileQ (ltv_population a.rows) (3/4) := hle
      have hgtx : quantileQ (ltv_population a.rows) (1/2) <
          ltv a.rows k := hgt
      show segment_of (ltv_population a.rows) (ltv a.rows k) = "Premium"
      unfold segment_of
      rw [if_neg (not_lt.mpr hlex), if_pos hgtx]
    · intro hle hgt
      have hlex : ltv a.rows k ≤
          quantileQ (ltv_population a.rows) (1/2) := hle
      have hgtx : quantileQ (ltv_population a.rows) (1/4) <
          ltv a.rows k := hgt
      show segment_of (ltv_population a.rows) (ltv a.rows k) = "Standard"
      unfold segment_of
      rw [if_neg (not_lt.mpr (le_trans hlex h5075)),
        if_neg (not_lt.mpr hlex), if_pos hgtx]
    · intro hle
      have hlex : ltv a.rows k ≤
          quantileQ (ltv_population a.rows) (1/4) := hle
      show segment_of (ltv_population a.rows) (ltv a.rows k) = "New"
      unfold segment_of
      rw [if_neg (not_lt.mpr (le_trans hlex (le_trans h2550 h5075))),
        if_neg (not_lt.mpr (le_trans hlex h2550)),
        if_neg (not_lt.mpr hlex)]
    · show segment_of (ltv_population a.rows) (ltv a.rows k) = "VIP" ∨
        segment_of (ltv_population a.rows) (ltv a.rows k) = "Premium" ∨
        segment_of (ltv_population a.rows) (ltv a.rows k) = "Standard" ∨
        segment_of (ltv_population a.rows) (ltv a.rows k) = "New"
      unfold segment_of
      split_ifs <;> simp

/-- Claim C5, witness: a one-customer dataset is nonempty and its
segmentation has duplicate-free customer ids with the single customer
labelled with one of the four segments. -/
theorem customer_segmentation_witness :
    (([⟨"o1", "c1", 0, 5, "A", "p", 1⟩] : List Row) ≠ []) ∧
    ((get_customer_segmentation ⟨[⟨"o1", "c1", 0, 5, "A", "p", 1⟩],
      none⟩).map CustomerRow.customer_id).Nodup := by
  refine ⟨by simp, ?_⟩
  exact (customer_segmentation_spec ⟨[⟨"o1", "c1", 0, 5, "A", "p", 1⟩], none⟩
    (by simp)).1

theorem nlRel_trans (x y z : ℕ × TopCustomerRow) :
    nlRel x y → nlRel y z → nlRel x z := by
  intro h1 h2
  rcases h1 with h1 | ⟨h1e, h1i⟩
  · rcases h2 with h2 | ⟨h2e, h2i⟩
    · exact Or.inl (lt_trans h2 h1)
    · exact Or.inl (h2e ▸ h1)
  · rcases h2 with h2 | ⟨h2e, h2i⟩
    · exact Or.inl (h1e ▸ h2)
    · exact Or.inr ⟨h1e.trans h2e, le_trans h1i h2i⟩

theorem nlRel_total (x y : ℕ × TopCustomerRow) : nlRel x y ∨ nlRel y x := by
  rcases lt_trichotomy x.2.total_spent y.2.total_spent with hlt | heq | hgt
  · exact Or.inr (Or.inl hlt)
  · rcases le_total x.1 y.1 with hle | hle
    · exact Or.inl (Or.inr ⟨heq, hle⟩)
    · exact Or.inr (Or.inr ⟨heq.symm, hle⟩)
  · exact Or.inl (Or.inl hgt)

theorem top_agg_id (rows : List Row) (c : String) :
    (top_agg rows c).customer_id = c := rfl

theorem customer_table_map_id (rows : List Row) :
    (customer_table rows).map TopCustomerRow.customer_id =
      sortedKeys (rows.map Row.customer_id) := by
  rw [customer_table, List.map_map]
  exact (List.map_congr_left (fun k _ => top_agg_id rows k)).trans
    (List.map_id _)

theorem customer_table_length (rows : List Row) :
    (customer_table rows).length = nuniq (rows.map Row.customer_id) := by
  rw [customer_table, List.length_map]
  exact (sortedKeys_perm _).length_eq

/-- Claim C6: for every positive `n`, `get_top_customers(n)` returns at
most `n` rows, sorted non-increasing by lifetime spend (the model of
`nlargest` breaks ties deterministically by first position in the
customer table), with duplicate-free customer ids; and when `n` is at
least the distinct customer count the whole customer table is returned
(as a permutation), not an error. -/
theorem top_customers_spec (a : SalesAnalyzer) (n : ℕ) (hn : 1 ≤ n) :
    (get_top_customers a n).length ≤ n ∧
    (get_top_customers a n).Pairwise
      (fun x y => y.total_spent ≤ x.total_spent) ∧
    ((get_top_customers a n).map TopCustomerRow.customer_id).Nodup ∧
    (nuniq (a.rows.map Row.customer_id) ≤ n →
      (get_top_customers a n).Perm (customer_table a.rows)) := by
  haveI : IsTotal (ℕ × TopCustomerRow) nlRel := ⟨nlRel_total⟩
  haveI : IsTrans (ℕ × TopCustomerRow) nlRel :=
    ⟨fun x y z => nlRel_trans x y z⟩
  have hsorted : (List.insertionSort nlRel
      (customer_table a.rows).enum).Pairwise nlRel :=
    List.sorted_insertionSort nlRel _
  refine ⟨?_, ?_, ?_, ?_⟩
  · show (((List.insertionSort nlRel
        (customer_table a.rows).enum).take n).map Prod.snd).length ≤ n
    rw [List.length_map, List.length_take]
    exact min_le_left _ _
  · have htake := List.Pairwise.sublist (List.take_sublist n _) hsorted
    show (((List.insertionSort nlRel
        (customer_table a.rows).enum).take n).map Prod.snd).Pairwise
      (fun x y => y.total_spent ≤ x.total_spent)
    rw [List.pairwise_map]
    refine htake.imp ?_
    intro x y hxy
    rcases hxy with hlt | ⟨heq, hidx⟩
    · exact le_of_lt hlt
    · exact le_of_eq heq.symm
  · have hperm : ((List.insertionSort nlRel
        (customer_table a.rows).enum).map
          (fun x => x.2.customer_id)).Perm
        ((customer_table a.rows).enum.map (fun x => x.2.customer_id)) :=
      (List.perm_insertionSort _ _).map _
    have henum : (customer_table a.rows).enum.map
        (fun x => x.2.customer_id) =
        (customer_table a.rows).map TopCustomerRow.customer_id := by
      have hmm : (customer_table a.rows).enum.map
          (fun x : ℕ × TopCustomerRow => x.2.customer_id) =
          ((customer_table a.rows).enum.map Prod.snd).map
            TopCustomerRow.customer_id := by
        rw [List.map_map]
        rfl
      rw [hmm, List.enum_map_snd]
    have hnodup : ((List.insertionSort nlRel
        (customer_table a.rows).enum).map
          (fun x => x.2.customer_id)).Nodup := by
      rw [hperm.nodup_iff, henum, customer_table_map_id]
      exact sortedKeys_nodup _
    show ((((List.insertionSort nlRel
        (customer_table a.rows).enum).take n).map Prod.snd).map
          TopCustomerRow.customer_id).Nodup
    rw [List.map_map]
    refine List.Sublist.nodup ?_ hnodup
    exact (List.take_sublist n _).map _
  · intro hle
    have hlen2 : (List.insertionSort nlRel
        (customer_table a.rows).enum).length ≤ n := by
      rw [(List.perm_insertionSort _ _).length_eq, List.enum_length,
        customer_table_length]
      exact hle
    show ((((List.insertionSort nlRel
        (customer_table a.rows).enum).take n).map Prod.snd)).Perm
      (customer_table a.rows)
    rw [List.take_of_length_le hlen2]
    have hp : ((List.insertionSort nlRel
        (customer_table a.rows).enum).map Prod.snd).Perm
        ((customer_table a.rows).enum.map Prod.snd) :=
      (List.perm_insertionSort _ _).map _
    rw [List.enum_map_snd] at hp
    exact hp

/-- Claim C6, witness: on a concrete two-customer dataset with `n = 5`
the hypotheses hold, the result has at most 5 rows and, since 5 exceeds
the customer count, it is the whole customer table. -/
theorem top_customers_witness :
    1 ≤ 5 ∧
    nuniq (([⟨"o1", "c1", 0, 5, "A", "p", 1⟩,
      ⟨"o2", "c2", 3, 3, "B", "p", 2⟩] : List Row).map Row.customer_id) ≤ 5 ∧
    (get_top_customers ⟨[⟨"o1", "c1", 0, 5, "A", "p", 1⟩,
      ⟨"o2", "c2", 3, 3, "B", "p", 2⟩], none⟩ 5).length ≤ 5 ∧
    (get_top_customers ⟨[⟨"o1", "c1", 0, 5, "A", "p", 1⟩,
      ⟨"o2", "c2", 3, 3, "B", "p", 2⟩], none⟩ 5).Perm
      (customer_table [⟨"o1", "c1", 0, 5, "A", "p", 1⟩,
        ⟨"o2", "c2", 3, 3, "B", "p", 2⟩]) := by
  have hcount : nuniq (([⟨"o1", "c1", 0, 5, "A", "p", 1⟩,
      ⟨"o2", "c2", 3, 3, "B", "p", 2⟩] : List Row).map Row.customer_id)
      ≤ 5 := by decide
  refine ⟨by norm_num, hcount, ?_, ?_⟩
  · exact (top_customers_spec ⟨[⟨"o1", "c1", 0, 5, "A", "p", 1⟩,
      ⟨"o2", "c2", 3, 3, "B", "p", 2⟩], none⟩ 5 (by norm_num)).1
  · exact (top_customers_spec ⟨[⟨"o1", "c1", 0, 5, "A", "p", 1⟩,
      ⟨"o2", "c2", 3, 3, "B", "p", 2⟩], none⟩ 5 (by norm_num)).2.2.2 hcount

/-- Claim C7 (evaluation of the defect): `generate_sample_data` always
produces exactly the requested number of records in all seven columns,
and two calls with the same seed and count agree on every column except
`order_date`; but `order_date` is built from `datetime.now()` read at the
call (once per record), so two independent calls reading different clocks
produce different `order_date` columns and hence datasets that are not
byte-identical, contrary to the claim and to the repository's own
`test_reproducibility`. -/
theorem generate_sample_data_clock_dependence :
    (∀ (np : ℕ → NpStreams) (n seed : ℕ) (clock : ℕ → ℤ),
      (generate_sample_data np n seed clock).order_id.length = n ∧
      (generate_sample_data np n seed clock).customer_id.length = n ∧
      (generate_sample_data np n seed clock).order_date.length = n ∧
      (generate_sample_data np n seed clock).amount.length = n ∧
      (generate_sample_data np n seed clock).region.length = n ∧
      (generate_sample_data np n seed clock).product_category.length = n ∧
      (generate_sample_data np n seed clock).quantity.length = n) ∧
    (∀ (np : ℕ → NpStreams) (n seed : ℕ) (c1 c2 : ℕ → ℤ),
      (generate_sample_data np n seed c1).order_id =
        (generate_sample_data np n seed c2).order_id ∧
      (generate_sample_data np n seed c1).customer_id =
        (generate_sample_data np n seed c2).customer_id ∧
      (generate_sample_data np n seed c1).amount =
        (generate_sample_data np n seed c2).amount ∧
      (generate_sample_data np n seed c1).region =
        (generate_sample_data np n seed c2).region ∧
      (generate_sample_data np n seed c1).product_category =
        (generate_sample_data np n seed c2).product_category ∧
      (generate_sample_data np n seed c1).quantity =
        (generate_sample_data np n seed c2).quantity) ∧
    (generate_sample_data npTest 1 42 (fun _ => 0)).order_date ≠
      (generate_sample_data npTest 1 42 (fun _ => 1)).order_date ∧
    generate_sample_data npTest 1 42 (fun _ => 0) ≠
      generate_sample_data npTest 1 42 (fun _ => 1) := by
  have hdate : (generate_sample_data npTest 1 42 (fun _ => 0)).order_date ≠
      (generate_sample_data npTest 1 42 (fun _ => 1)).order_date := by
    decide
  refine ⟨?_, ?_, hdate, ?_⟩
  · intro np n seed clock
    refine ⟨?_, ?_, ?_, ?_, ?_, ?_, ?_⟩ <;>
      simp [generate_sample_data]
  · intro np n seed c1 c2
    exact ⟨rfl, rfl, rfl, rfl, rfl, rfl⟩
  · intro h
    exact hdate (congrArg GenDataset.order_date h)

/-- Claim C2, witness: on a concrete one-row dataset the row is in the
dataset and its region appears among the keys of the regional analysis. -/
theorem regional_product_partition_witness :
    (⟨"o1", "c1", 0, 1, "A", "p", 1⟩ : Row) ∈
      ([⟨"o1", "c1", 0, 1, "A", "p", 1⟩] : List Row) ∧
    Row.region ⟨"o1", "c1", 0, 1, "A", "p", 1⟩ ∈
      (get_regional_analysis ⟨[⟨"o1", "c1", 0, 1, "A", "p", 1⟩], none⟩).map
        GroupStats.key := by
  have hmem : (⟨"o1", "c1", 0, 1, "A", "p", 1⟩ : Row) ∈
      ([⟨"o1", "c1", 0, 1, "A", "p", 1⟩] : List Row) :=
    List.mem_cons_self _ _
  exact ⟨hmem, (regional_product_partition_and_sort
    ⟨[⟨"o1", "c1", 0, 1, "A", "p", 1⟩], none⟩).1.2.2.1 _ hmem⟩
